import Mathlib

/-!
Verification of the audio batch-conversion program (2convert.py).

The program is embedded shallowly:
* Python regular expressions used by the tag parsers are embedded as
  sequences of character-class atoms with greedy `+` / single-character
  quantifiers, matched by a backtracking matcher (`matchAtoms`) that mirrors
  the leftmost-greedy semantics of `re.match` (prefix matching, no end
  anchor).
* `os.path.split` / `os.path.splitext` / `os.path.join` and `str.split` are
  embedded faithfully on `List Char` following their CPython (posixpath)
  definitions.
* Side effects (subprocess execution, printing, filesystem mutation) are
  embedded as explicit effect traces (`Eff`), with the external world
  (file existence, subprocess exit codes, `sox --info` output, the uuid
  temp name, `os.makedirs` outcomes) supplied by an `Env` record.
* Python return values of the converter functions are embedded as
  `PyResult` (`ret v` for a returned value, where `v : Option Bool` has
  `none` standing for Python `None`; `assertFail` for an `AssertionError`;
  `error` for any other uncaught exception).
-/

namespace TwoConvert

/-- The apostrophe character (ASCII 39), which occurs in the regex
character classes of the source. -/
def apos : Char := Char.ofNat 39

/-- Character class of `[\d]` / `\d` in the source regexes (ASCII digits). -/
def isDigitC (c : Char) : Bool := c.isDigit

/-- Character class of `text_pattern` = `[a-zA-Z _\d.()<apos>]`. -/
def textC (c : Char) : Bool :=
  c.isAlpha || c == ' ' || c == '_' || c.isDigit || c == '.' || c == '(' || c == ')' || c == apos

/-- Character class of `text_dash_pattern` = `[a-zA-Z _\d.()<apos>-]`. -/
def textDashC (c : Char) : Bool := textC c || c == '-'

/-- Character class of `sep_pattern` = `[- _.]`. -/
def sepC (c : Char) : Bool := c == '-' || c == ' ' || c == '_' || c == '.'

/-- Character class of the tag-key pattern `[a-zA-Z_]` in
`get_tag_info_from_file`. -/
def keyC (c : Char) : Bool := c.isAlpha || c == '_'

/-- Quantifier of a regex atom: a single mandatory character, or a greedy
`+` repetition. -/
inductive Quant
  | one
  | plus

/-- One atom of an embedded regex: a character class with a quantifier. -/
structure Atom where
  cls : Char → Bool
  q : Quant

/-- Length of the longest run of characters satisfying `p` at the head of
the list (what a greedy `C+` consumes before backtracking). -/
def maxRun (p : Char → Bool) : List Char → Nat
  | [] => 0
  | c :: cs => if p c then maxRun p cs + 1 else 0

/-- The candidate (consumed, remainder) splits an atom may produce, longest
first — the order in which a backtracking regex engine tries them. -/
def splitsDesc (p : Char → Bool) (q : Quant) (s : List Char) :
    List (List Char × List Char) :=
  match q with
  | .one =>
    match s with
    | [] => []
    | c :: cs => if p c then [([c], cs)] else []
  | .plus =>
    (List.range (maxRun p s)).reverse.map (fun i => (s.take (i + 1), s.drop (i + 1)))

/-- Backtracking matcher for a sequence of atoms against a character list,
mirroring `re.match` for the concatenations of character classes used in
the source: it returns the consumed segment of every atom for the
leftmost match in which earlier greedy quantifiers are as long as
possible, or `none` when the whole sequence cannot match a prefix. -/
def matchAtoms : List Atom → List Char → Option (List (List Char))
  | [], _ => some []
  | a :: rest, s =>
    (splitsDesc a.cls a.q s).findSome?
      (fun c => (matchAtoms rest c.2).map (fun segs => c.1 :: segs))

/-- Atoms of the regex `([\d]+)[- _.]+([a-zA-Z _\d.()<apos>-]+)` used by the
first alternative of `parse2` (captured groups are the segments at
indices 0 and 2). -/
def twoFieldAtoms : List Atom :=
  [⟨isDigitC, .plus⟩, ⟨sepC, .plus⟩, ⟨textDashC, .plus⟩]

/-- Atoms of the regex `([a-zA-Z _\d.()<apos>]+)` (`text_pattern`). -/
def textAtoms : List Atom := [⟨textC, .plus⟩]

/-- Diagnostics printed by the program, embedded structurally (one
constructor per print statement shape in the source). -/
inductive Diag
  | cantParse (field : String) (s : String)
  | unknownFiletype (ext : String) (path : String)
  deriving DecidableEq, Repr

/-- Key-value lookup in a Python-dict embedding (first entry wins; the
embedding keeps insertion order like a Python dict). -/
def lookupKey (k : String) : List (String × String) → Option String
  | [] => none
  | kv :: rest => if kv.1 = k then some kv.2 else lookupKey k rest

/-- Python dict assignment `d[k] = v`: replaces the value in place if the
key exists, otherwise appends the pair. -/
def dictInsert (d : List (String × String)) (k v : String) : List (String × String) :=
  if (lookupKey k d).isSome then
    d.map (fun e => if e.1 = k then (e.1, v) else e)
  else d ++ [(k, v)]

/-- Python `dict.update`: insert every pair of `new` in order. -/
def dictUpdate (d new : List (String × String)) : List (String × String) :=
  new.foldl (fun acc kv => dictInsert acc kv.1 kv.2) d

/-- The `parse2` of the source: try `<digits><sep><textdash>`; on failure try
`<text>` alone; on total failure emit a diagnostic.  Returns the produced
tag entries (in insertion order) together with the emitted diagnostics. -/
def parse2 (s : List Char) (field1 field2 : String) :
    List (String × String) × List Diag :=
  match matchAtoms twoFieldAtoms s with
  | some segs =>
    ([(field1, (segs.getD 0 []).asString), (field2, (segs.getD 2 []).asString)], [])
  | none =>
    match matchAtoms textAtoms s with
    | some segs => ([(field2, (segs.getD 0 []).asString)], [])
    | none => ([], [Diag.cantParse field2 s.asString])

/-- The `parse1` of the source: match `<text>` alone; on failure emit a
diagnostic. -/
def parse1 (s : List Char) (field : String) :
    List (String × String) × List Diag :=
  match matchAtoms textAtoms s with
  | some segs => ([(field, (segs.getD 0 []).asString)], [])
  | none => ([], [Diag.cantParse field s.asString])

/-- The `posixpath.split`: split off the last path component.  The head keeps
its trailing slashes only when it consists solely of slashes. -/
def splitPathData (p : List Char) : List Char × List Char :=
  let tail := (p.reverse.takeWhile (fun c => c != '/')).reverse
  let head := p.take (p.length - tail.length)
  if head ≠ [] ∧ head.any (fun c => c != '/') then
    ((head.reverse.dropWhile (fun c => c == '/')).reverse, tail)
  else
    (head, tail)

/-- Position (from the left) of the last character satisfying `p`,
mirroring Python `str.rfind` (`none` for `-1`). -/
def rfindPos (p : Char → Bool) (s : List Char) : Option Nat :=
  match s.reverse.findIdx? p with
  | some i => some (s.length - 1 - i)
  | none => none

/-- The `posixpath.splitext`: split off the extension at the last dot after
the last slash, unless the basename up to that dot consists only of
dots (leading-dot files have no extension). -/
def splitextData (p : List Char) : List Char × List Char :=
  match rfindPos (fun c => c == '.') p with
  | none => (p, [])
  | some d =>
    let fstart : Nat :=
      match rfindPos (fun c => c == '/') p with
      | none => 0
      | some si => si + 1
    if fstart ≤ d ∧ ((p.drop fstart).take (d - fstart)).any (fun c => c != '.') then
      (p.take d, p.drop d)
    else (p, [])

/-- The `while p:` loop of `get_tag_info_from_path`, collecting ancestor
folder names until the source-root folder (exclusive) or the filesystem
root is reached.  Structured with fuel; the fuel supplied by
`extractFields` suffices for every input on which the Python loop
terminates (on a path whose remaining head never shrinks — e.g. a `//`
prefix — the Python loop diverges). -/
def extractFieldsAux (src : List Char) : Nat → List Char → List (List Char) → List (List Char)
  | 0, _, acc => acc
  | fuel + 1, p, acc =>
    if p = [] then acc
    else
      let pr := splitPathData p
      if pr.2 = src then acc
      else if pr.1 = ['/'] then acc ++ [pr.2]
      else extractFieldsAux src fuel pr.1 (acc ++ [pr.2])

/-- The field-extraction phase of `get_tag_info_from_path`: strip the
extension, then walk upward collecting `[filename, folder1, folder2, ...]`
until the source-root folder name is found. -/
def extractFields (path src : String) : List (List Char) :=
  let p0 := (splitextData path.data).1
  let pr := splitPathData p0
  extractFieldsAux src.data p0.length pr.1 [pr.2]

/-- The positional parse functions of `parse_fcn_lookup` (the
`Parse2Wrapper` / `Parse1Wrapper` objects of the source). -/
inductive ParseFcn
  | p2 (field1 field2 : String)
  | p1 (field : String)

/-- Apply a wrapped parse function to a path component. -/
def applyParseFcn : ParseFcn → List Char → List (String × String) × List Diag
  | .p2 f1 f2, s => parse2 s f1 f2
  | .p1 f, s => parse1 s f

/-- The `parse_fcn_lookup` of the source. -/
def parseFcnLookup : List ParseFcn :=
  [.p2 "TRACKNUMBER" "TITLE", .p2 "DATE" "ALBUM", .p1 "ARTIST", .p1 "GENRE"]

/-- The positional parsing loop of `get_tag_info_from_path`: zip the
extracted fields with the parse functions (zip truncates like Python) and
accumulate tag entries with `dict.update`. -/
def parsePositional (fields : List (List Char)) :
    List (String × String) × List Diag :=
  (fields.zip parseFcnLookup).foldl
    (fun acc p =>
      let r := applyParseFcn p.2 p.1
      (dictUpdate acc.1 r.1, acc.2 ++ r.2))
    ([], [])

/-- The `get_tag_info_from_path` of the source, returning the tag dict
together with the diagnostics it prints. -/
def getTagInfoFromPathD (path src : String) :
    List (String × String) × List Diag :=
  parsePositional (extractFields path src)

/-! ### Embedded tag reading (`get_tag_info_from_file`) -/

/-- Result of a `subprocess.Popen` + `communicate()` call: the return code
and the decoded standard output. -/
structure SubprocResult where
  returncode : Int
  stdout : String

/-- Python `str.split(sep)` for a single separator character
(`pout.decode("utf-8").split('\n')`). -/
def splitChar (sep : Char) (s : List Char) : List (List Char) :=
  s.foldr
    (fun c acc =>
      match acc with
      | [] => [[]]
      | cur :: rest => if c == sep then [] :: cur :: rest else (c :: cur) :: rest)
    [[]]

/-- Atoms of the header regex `Comments[ ]+:`. -/
def commentsHeaderAtoms : List Atom :=
  (("Comments").data.map (fun ch => Atom.mk (fun c => c == ch) .one)) ++
    [⟨(fun c => c == ' '), .plus⟩, ⟨(fun c => c == ':'), .one⟩]

/-- Atoms of the comment-line regex `([a-zA-Z_]+)=([a-zA-Z _\d.()<apos>-]+)`
(captured groups are the segments at indices 0 and 2). -/
def commentLineAtoms : List Atom :=
  [⟨keyC, .plus⟩, ⟨(fun c => c == '='), .one⟩, ⟨textDashC, .plus⟩]

/-- The parsing loop of `get_tag_info_from_file`: scan the output lines,
start collecting `key=value` pairs only after a `Comments` header line. -/
def soxParseLines (lines : List (List Char)) : List (String × String) :=
  (lines.foldl
    (fun (st : Bool × List (String × String)) line =>
      if st.1 then
        match matchAtoms commentLineAtoms line with
        | some segs =>
          (st.1, dictInsert st.2 (segs.getD 0 []).asString (segs.getD 2 []).asString)
        | none => st
      else
        match matchAtoms commentsHeaderAtoms line with
        | some _ => (true, st.2)
        | none => st)
    (false, [])).2

/-- The `get_tag_info_from_file` of the source, as a function of the
subprocess result of `sox --info path`.  Note: the source never inspects
`returncode`; the result is parsed from stdout alone, and the function
prints nothing. -/
def getTagInfoFromFile (r : SubprocResult) : List (String × String) :=
  soxParseLines (splitChar '\n' r.stdout.data)

/-! ### Tag merging (the loop in `to_mp3`) -/

/-- The merge loop of `to_mp3`: `for k, v in addtl_tags.items(): if k not
in tag_info: tag_info[k] = v` — entries of the embedded set take
precedence, path-derived entries only fill missing keys. -/
def mergeTags (primary secondary : List (String × String)) : List (String × String) :=
  secondary.foldl
    (fun acc kv => if (lookupKey kv.1 acc).isSome then acc else acc ++ [kv])
    primary

/-! ### Effects, environment and Python results -/

/-- Output lines printed by the program, embedded structurally: one
constructor per print-statement shape in the source. -/
inductive Line
  | header (tag : String) (path : String)
  | cmdLine (cmd : List String)
  | diag (d : Diag)
  | checkFail (cmd : List String) (returncode : Int)
  | moveMsg (src : String) (dest : String)
  | deletingTemp (f : String)
  deriving DecidableEq, Repr

/-- Observable effects of the program: subprocess execution, printing, and
filesystem mutation. -/
inductive Eff
  | run (cmd : List String)
  | print (l : Line)
  | mkdirs (dir : String)
  | move (src : String) (dest : String)
  | remove (f : String)
  deriving DecidableEq, Repr

/-- Whether an effect mutates the filesystem. -/
def Eff.isMutation : Eff → Bool
  | .mkdirs _ => true
  | .move _ _ => true
  | .remove _ => true
  | _ => false

/-- Whether an effect is a subprocess execution. -/
def Eff.isRun : Eff → Bool
  | .run _ => true
  | _ => false

/-- Outcome of an `os.makedirs` call: success, or an `OSError` together
with whether the target directory exists afterwards (an "already exists"
error is exactly an error with the directory present). -/
inductive MkOutcome
  | ok
  | oserror (isdirAfter : Bool)
  deriving DecidableEq, Repr

/-- Result of a Python function call in the embedding: a returned value
(`none` = Python `None`), an `AssertionError`, or another uncaught
exception. -/
inductive PyResult
  | ret (v : Option Bool)
  | assertFail
  | error
  deriving DecidableEq, Repr

/-- The external world: file existence, the `sox --info` output per path,
the exit status of executed commands, the uuid-based temp name, and the
outcome of `os.makedirs` per directory. -/
structure Env where
  isfile : String → Bool
  soxInfo : String → SubprocResult
  runStatus : List String → Int
  tempName : String
  mkdirs : String → MkOutcome

/-- The `check_subprocess_status` of the source: on a non-zero return code,
print a diagnostic block (embedded as one structured line) and report
`false`; otherwise report `true`.  (The `assert returncode != None` of the
source always holds after `communicate()` and is not modelled.) -/
def checkSubprocessStatus (cmd : List String) (returncode : Int) : List Eff × Bool :=
  if returncode ≠ 0 then ([Eff.print (.checkFail cmd returncode)], false)
  else ([], true)

/-- Run a command as the source does when not in preview: execute it, then
check its status (whose boolean is assigned to the dead variable
`status`). -/
def execChecked (env : Env) (cmd : List String) : List Eff :=
  Eff.run cmd :: (checkSubprocessStatus cmd (env.runStatus cmd)).1

/-! ### Converters -/

/-- The extension of a path, lower-cased
(`os.path.splitext(path)[1].lower()`). -/
def extLower (p : String) : String :=
  ((splitextData p.data).2.map Char.toLower).asString

/-- The root of a path without its extension (`os.path.splitext(path)[0]`). -/
def extRoot (p : String) : String := ((splitextData p.data).1).asString

/-- The `tag_lookup` of `to_mp3`. -/
def tagLookup : List (String × String) :=
  [("TITLE", "--tt"), ("ARTIST", "--ta"), ("ALBUM", "--tl"),
   ("DATE", "--ty"), ("TRACKNUMBER", "--tn"), ("GENRE", "--tg")]

/-- The tag-option construction loop of `to_mp3`: known keys map to lame
flags, unknown keys are dropped. -/
def mp3TagOptions (tags : List (String × String)) : List String :=
  tags.foldl
    (fun acc kv =>
      match lookupKey kv.1 tagLookup with
      | some flag => acc ++ [flag, kv.2]
      | none => acc)
    []

/-- The `to_mp3` of the source.  Always extracts embedded tags (running
`sox --info` even in preview), merges in path-derived tags, builds the
`lame` command, and executes it or prints it; always returns `True`. -/
def toMp3 (env : Env) (path : String) (options : List String) (preview : Bool)
    (imgFile : Option String) : List Eff × PyResult :=
  if ¬ env.isfile path then ([], .assertFail)
  else
    let soxEffs : List Eff := [Eff.print (.header "-> MP3: " path), Eff.run ["sox", "--info", path]]
    let tagInfo := getTagInfoFromFile (env.soxInfo path)
    let pr := getTagInfoFromPathD path "2mp3"
    let diagEffs := pr.2.map (fun d => Eff.print (.diag d))
    let tags := mergeTags tagInfo pr.1
    let tagOptions :=
      match imgFile with
      | some img => mp3TagOptions tags ++ ["--ti", img]
      | none => mp3TagOptions tags
    let cmd := ["lame"] ++ ["-V2"] ++ tagOptions ++ options ++ [path]
    let tail := if preview then [Eff.print (.cmdLine cmd)] else execChecked env cmd
    (soxEffs ++ diagEffs ++ tail, .ret (some true))

/-- The `to_wav` of the source: dispatch on the (lower-cased) extension;
`.flac` decodes, `.mp3` converts via sox, `.wav` is a silent no-op, any
other extension prints a diagnostic; always returns `True`. -/
def toWav (env : Env) (path : String) (options : List String) (preview : Bool)
    (imgFile : Option String) : List Eff × PyResult :=
  if ¬ env.isfile path then ([], .assertFail)
  else
    let base := extRoot path
    let ext := extLower path
    if ext = ".flac" then
      let cmd := ["flac", "-d"] ++ options ++ [path]
      let tail := if preview then [Eff.print (.cmdLine cmd)] else execChecked env cmd
      ([Eff.print (.header "-> WAV: " path)] ++ tail, .ret (some true))
    else if ext = ".mp3" then
      let cmd := ["sox"] ++ options ++ [path, base ++ ".wav"]
      let tail := if preview then [Eff.print (.cmdLine cmd)] else execChecked env cmd
      ([Eff.print (.header "-> WAV: " path)] ++ tail, .ret (some true))
    else if ext = ".wav" then ([], .ret (some true))
    else ([Eff.print (.diag (.unknownFiletype ext path))], .ret (some true))

/-- The `flac_to_flac` of the source: decode the original to a uuid-named temp
wave, read the embedded tags of the original (running `sox --info` even in
preview), re-encode the temp wave to `<root>_.flac`, delete the temp wave.
The Python function has no `return` statement, so it returns `None`. -/
def flacToFlac (env : Env) (path : String) (options : List String) (preview : Bool)
    (imgFile : Option String) : List Eff × PyResult :=
  let temp := env.tempName ++ ".wav"
  let cmd1 := ["flac", "-d", path, "-o", temp]
  let part1 := if preview then [Eff.print (.cmdLine cmd1)] else execChecked env cmd1
  let tagInfo := getTagInfoFromFile (env.soxInfo path)
  let tagOptions := tagInfo.map (fun kv => "--tag=" ++ kv.1 ++ "=" ++ kv.2)
  let newFlacName := extRoot path ++ "_.flac"
  let cmd2 := ["flac"] ++ ["-8", "--replay-gain"] ++ tagOptions ++ options ++
    [temp, "-o", newFlacName]
  let part2 := if preview then [Eff.print (.cmdLine cmd2)] else execChecked env cmd2
  let part3 := if preview then [Eff.print (.deletingTemp temp)] else [Eff.remove temp]
  (part1 ++ [Eff.run ["sox", "--info", path], Eff.print (.header "->FLAC: " path)] ++
      part2 ++ part3,
    .ret none)

/-- The `to_flac` of the source: asserts the input is not `.mp3`; `.flac`
delegates to the re-encode path (returning its `None`); non-`.wav` files
are a silent no-op returning `True`; `.wav` files are encoded with
path-derived tags, returning `True`. -/
def toFlac (env : Env) (path : String) (options : List String) (preview : Bool)
    (imgFile : Option String) : List Eff × PyResult :=
  if ¬ env.isfile path then ([], .assertFail)
  else
    let ext := extLower path
    if ext = ".mp3" then ([], .assertFail)
    else if ext = ".flac" then flacToFlac env path options preview imgFile
    else if ext ≠ ".wav" then ([], .ret (some true))
    else
      let pr := getTagInfoFromPathD path "2flac"
      let diagEffs := pr.2.map (fun d => Eff.print (.diag d))
      let tagOptions := pr.1.map (fun kv => "--tag=" ++ kv.1 ++ "=" ++ kv.2)
      let cmd := ["flac"] ++ ["-8", "--replay-gain"] ++ tagOptions ++ options ++ [path]
      let tail := if preview then [Eff.print (.cmdLine cmd)] else execChecked env cmd
      ([Eff.print (.header "->FLAC: " path)] ++ diagEffs ++ tail, .ret (some true))

/-! ### Job scheduling (`process_case` and the sequential preview loop) -/

/-- The converter assigned to a job (the `FuncWrapper`-wrapped function in
`conv_fcn_lut`). -/
inductive Conv
  | mp3
  | wav
  | flac
  deriving DecidableEq, Repr

/-- A scheduled case: the tuple `(path, fcn, options, preview, img_file)`
built in `main` (the `options` element is always `None` there and is never
forwarded by `process_case`). -/
structure Job where
  path : String
  conv : Conv
  options : Option (List String)
  preview : Bool
  img : Option String

/-- Dispatch through the converter lookup; `process_case` calls the
converter with only `path`, `preview` and `img_file`, so `options` takes
its default `[]`. -/
def runConv : Conv → Env → String → Bool → Option String → List Eff × PyResult
  | .mp3, env, p, pv, img => toMp3 env p [] pv img
  | .wav, env, p, pv, img => toWav env p [] pv img
  | .flac, env, p, pv, img => toFlac env p [] pv img

/-- The `while remaining:` loop of `process_case`: repeatedly split off the
last component of `os.path.dirname(path)`, ending with the topmost folder
name (or `none` when the dirname is empty, in which case Python raises
`UnboundLocalError` at the following use of `folder`).  Structured with
fuel; the fuel supplied below suffices whenever the Python loop terminates
(on an absolute path the Python loop never terminates, since
`os.path.split('/')` returns `('/', '')`). -/
def topFolderAux : Nat → List Char → Option (List Char) → Option (List Char)
  | 0, _, acc => acc
  | fuel + 1, p, acc =>
    if p = [] then acc
    else topFolderAux fuel (splitPathData p).1 (some (splitPathData p).2)

/-- The topmost folder component of the dirname of a path, as computed by
`process_case`. -/
def topFolderStr (path : String) : Option String :=
  (topFolderAux (path.length + 1) (splitPathData path.data).1 none).map List.asString

/-- Python `str.split(sep)` for a non-empty separator string: split at
every leftmost non-overlapping occurrence.  Structured with fuel; fuel
`s.length + 1` is always sufficient because every step consumes at least
one character. -/
def splitOnListAux (sep : List Char) : Nat → List Char → List Char → List (List Char)
  | 0, cur, s => [cur.reverse ++ s]
  | fuel + 1, cur, s =>
    if sep ≠ [] ∧ s.take sep.length = sep then
      cur.reverse :: splitOnListAux sep fuel [] (s.drop sep.length)
    else
      match s with
      | [] => [cur.reverse]
      | c :: cs => splitOnListAux sep fuel (c :: cur) cs

/-- Python `str.split(sep)` for a non-empty separator. -/
def splitOnList (sep s : List Char) : List (List Char) :=
  splitOnListAux sep (s.length + 1) [] s

/-- The `posixpath.join` for two components. -/
def pathJoin (a b : String) : String :=
  if b.data.head? = some '/' then b
  else if a = "" ∨ a.data.getLast? = some '/' then a ++ b
  else a ++ "/" ++ b

/-- The `os.path.dirname`. -/
def dirnameStr (p : String) : String := ((splitPathData p.data).1).asString

/-- The `process_case` of the source: run the converter (whose result is
discarded), then relocate the source file to
`os.path.join('done', path.split(folder + '/')[1])` where `folder` is the
topmost folder of the dirname of the path — printing the move in preview mode,
and otherwise creating the destination directory (tolerating an `OSError`
exactly when the directory exists afterwards) and moving the file.  An
exception from the converter or from the relocation aborts the case. -/
def processCase (env : Env) (job : Job) : List Eff × PyResult :=
  let r := runConv job.conv env job.path job.preview job.img
  match r.2 with
  | .assertFail => (r.1, .assertFail)
  | .error => (r.1, .error)
  | .ret _ =>
    match topFolderStr job.path with
    | none => (r.1, .error)
    | some folder =>
      let pieces := splitOnList (folder.data ++ ['/']) job.path.data
      match pieces.get? 1 with
      | none => (r.1, .error)
      | some relData =>
        let destPath := pathJoin ("done") relData.asString
        if job.preview then
          (r.1 ++ [Eff.print (.moveMsg job.path destPath)], .ret none)
        else
          let destFolder := dirnameStr destPath
          match env.mkdirs destFolder with
          | .ok => (r.1 ++ [Eff.mkdirs destFolder, Eff.move job.path destPath], .ret none)
          | .oserror isdirAfter =>
            if isdirAfter then
              (r.1 ++ [Eff.mkdirs destFolder, Eff.move job.path destPath], .ret none)
            else (r.1 ++ [Eff.mkdirs destFolder], .error)

/-- The sequential execution loop of `main` (the branch used in preview
mode, where `USE_MULTIPLE_THREADS` is forced off): run the cases in list
order; an uncaught exception aborts the remainder of the loop. -/
def runSequential (env : Env) : List Job → List Eff
  | [] => []
  | j :: rest =>
    let r := processCase env j
    match r.2 with
    | .ret _ => r.1 ++ runSequential env rest
    | _ => r.1

/-- Effects permitted in preview mode: prints, and the `sox --info`
metadata inspections (which the source performs unconditionally). -/
def previewSafeB (e : Eff) : Bool :=
  match e with
  | .print _ => true
  | .run cmd =>
    match cmd with
    | [a, b, _] => a == "sox" && b == "--info"
    | _ => false
  | _ => false

/-! ### Concrete environments for evaluating the embedding -/

/-- A benign concrete environment: every path exists, every command exits
with status 0, `sox --info` produces no output, the uuid temp stem is
`t`, and directory creation succeeds. -/
def envOk : Env where
  isfile := fun _ => true
  soxInfo := fun _ => ⟨0, ""⟩
  runStatus := fun _ => 0
  tempName := "t"
  mkdirs := fun _ => .ok

/-- The `envOk` with a fixed `os.makedirs` outcome. -/
def envMk (m : MkOutcome) : Env :=
  { envOk with mkdirs := fun _ => m }

/-! ### Lemmas about the matcher -/

theorem matchAtoms_nil (s : List Char) : matchAtoms [] s = some [] := rfl

theorem matchAtoms_cons (a : Atom) (rest : List Atom) (s : List Char) :
    matchAtoms (a :: rest) s =
      (splitsDesc a.cls a.q s).findSome?
        (fun c => (matchAtoms rest c.2).map (fun segs => c.1 :: segs)) := rfl

theorem maxRun_append_all (p : Char → Bool) (a b : List Char)
    (ha : ∀ c ∈ a, p c = true) :
    maxRun p (a ++ b) = a.length + maxRun p b := by
  induction a with
  | nil => simp [maxRun]
  | cons c cs ih =>
    have hc : p c = true := ha c (by simp)
    have ih2 := ih (fun d hd => ha d (by simp [hd]))
    simp only [List.cons_append, maxRun, hc, if_true, List.length_cons, List.append_eq, ih2]
    omega

theorem maxRun_head_false (p : Char → Bool) (b : List Char)
    (hb : ∀ c, b.head? = some c → p c = false) :
    maxRun p b = 0 := by
  cases b with
  | nil => rfl
  | cons c cs => simp [maxRun, hb c rfl]

theorem takeWhile_eq_take_maxRun (p : Char → Bool) (s : List Char) :
    s.takeWhile p = s.take (maxRun p s) := by
  induction s with
  | nil => rfl
  | cons c cs ih =>
    by_cases hc : p c = true
    · simp [List.takeWhile, maxRun, hc, ih]
    · simp only [Bool.not_eq_true] at hc
      simp [List.takeWhile, maxRun, hc]

theorem maxRun_pos_of_head (p : Char → Bool) (c : Char) (cs : List Char)
    (hc : p c = true) : ∃ n, maxRun p (c :: cs) = n + 1 := by
  refine ⟨maxRun p cs, ?_⟩
  simp [maxRun, hc]

theorem splitsDesc_plus_of_maxRun (p : Char → Bool) (s : List Char) (n : Nat)
    (h : maxRun p s = n + 1) :
    splitsDesc p .plus s =
      (s.take (n + 1), s.drop (n + 1)) ::
        (List.range n).reverse.map (fun i => (s.take (i + 1), s.drop (i + 1))) := by
  simp [splitsDesc, h, List.range_succ]

theorem matchAtoms_plus_hit (p : Char → Bool) (rest : List Atom) (s : List Char)
    (n : Nat) (segs : List (List Char))
    (hmax : maxRun p s = n + 1)
    (hrec : matchAtoms rest (s.drop (n + 1)) = some segs) :
    matchAtoms (⟨p, .plus⟩ :: rest) s = some (s.take (n + 1) :: segs) := by
  rw [matchAtoms_cons]
  simp [splitsDesc_plus_of_maxRun p s n hmax, List.findSome?_cons, hrec]

theorem matchAtoms_plus_none (p : Char → Bool) (rest : List Atom) (s : List Char)
    (hmax : maxRun p s = 0) :
    matchAtoms (⟨p, .plus⟩ :: rest) s = none := by
  rw [matchAtoms_cons]
  simp [splitsDesc, hmax]

/-- A greedy match of a single `text` atom succeeds from a `textC` head and
captures exactly the longest allowed run. -/
theorem matchAtoms_text_of_head (c : Char) (cs : List Char) (hc : textC c = true) :
    matchAtoms textAtoms (c :: cs) = some [(c :: cs).takeWhile textC] := by
  obtain ⟨n, hn⟩ := maxRun_pos_of_head textC c cs hc
  have h := matchAtoms_plus_hit textC [] (c :: cs) n [] hn (matchAtoms_nil _)
  rw [takeWhile_eq_take_maxRun, hn]
  simpa [textAtoms] using h

/-- A `text` match fails exactly on an empty string or a disallowed head. -/
theorem matchAtoms_text_none (s : List Char)
    (h : ∀ c, s.head? = some c → textC c = false) :
    matchAtoms textAtoms s = none := by
  exact matchAtoms_plus_none textC [] s (maxRun_head_false textC s h)

/-- Greedy matching recovers the exact segments of a well-separated
`<digits><sep><textdash>` concatenation: the digit run, the separator run
(whose end is marked by a non-separator first text character) and the
trailing text run. -/
theorem matchAtoms_twoField_structured (tr s0 ti : List Char)
    (htr : tr ≠ []) (htrd : ∀ c ∈ tr, isDigitC c = true)
    (hs0 : s0 ≠ []) (hs0s : ∀ c ∈ s0, sepC c = true)
    (hti : ti ≠ []) (htit : ∀ c ∈ ti, textDashC c = true)
    (hhd : ∀ c, ti.head? = some c → sepC c = false) :
    matchAtoms twoFieldAtoms (tr ++ s0 ++ ti) = some [tr, s0, ti] := by
  have hsep_not_digit : ∀ c, sepC c = true → isDigitC c = false := by
    intro c hc
    simp only [sepC, Bool.or_eq_true, beq_iff_eq] at hc
    rcases hc with ((h | h) | h) | h <;> subst h <;> decide
  -- digit stage
  have hmax1 : maxRun isDigitC (tr ++ (s0 ++ ti)) = tr.length := by
    rw [maxRun_append_all isDigitC tr (s0 ++ ti) htrd]
    have : maxRun isDigitC (s0 ++ ti) = 0 := by
      apply maxRun_head_false
      intro c hc
      cases s0 with
      | nil => exact absurd rfl hs0
      | cons d ds =>
        simp only [List.cons_append, List.head?_cons, Option.some.injEq] at hc
        subst hc
        exact hsep_not_digit d (hs0s d (by simp))
    omega
  obtain ⟨n1, hn1⟩ : ∃ n, tr.length = n + 1 := by
    cases tr with
    | nil => exact absurd rfl htr
    | cons _ _ => exact ⟨_, rfl⟩
  -- separator stage
  have hmax2 : maxRun sepC (s0 ++ ti) = s0.length := by
    rw [maxRun_append_all sepC s0 ti hs0s, maxRun_head_false sepC ti hhd]
    omega
  obtain ⟨n2, hn2⟩ : ∃ n, s0.length = n + 1 := by
    cases s0 with
    | nil => exact absurd rfl hs0
    | cons _ _ => exact ⟨_, rfl⟩
  -- text stage
  have hmax3 : maxRun textDashC ti = ti.length := by
    have := maxRun_append_all textDashC ti [] htit
    simpa [maxRun] using this
  obtain ⟨n3, hn3⟩ : ∃ n, ti.length = n + 1 := by
    cases ti with
    | nil => exact absurd rfl hti
    | cons _ _ => exact ⟨_, rfl⟩
  have step3 : matchAtoms [Atom.mk textDashC .plus] ti = some [ti] := by
    have h := matchAtoms_plus_hit textDashC [] ti n3 []
      (by rw [hmax3, hn3]) (matchAtoms_nil _)
    rw [← hn3] at h
    simpa [List.take_length] using h
  have step2 : matchAtoms [Atom.mk sepC .plus, Atom.mk textDashC .plus] (s0 ++ ti) =
      some [s0, ti] := by
    have h := matchAtoms_plus_hit sepC [Atom.mk textDashC .plus] (s0 ++ ti) n2 [ti]
      (by rw [hmax2, hn2]) (by rw [← hn2, List.drop_left]; exact step3)
    rw [← hn2, List.take_left] at h
    exact h
  have step1 := matchAtoms_plus_hit isDigitC
    [Atom.mk sepC .plus, Atom.mk textDashC .plus] (tr ++ (s0 ++ ti)) n1 [s0, ti]
    (by rw [hmax1, hn1]) (by rw [← hn1, List.drop_left]; exact step2)
  rw [← hn1, List.take_left] at step1
  simpa [twoFieldAtoms, List.append_assoc] using step1

/-- A full-string `text` match: a non-empty all-`textC` component is
captured whole. -/
theorem matchAtoms_text_full (f : List Char) (hne : f ≠ [])
    (hall : ∀ c ∈ f, textC c = true) :
    matchAtoms textAtoms f = some [f] := by
  cases f with
  | nil => exact absurd rfl hne
  | cons c cs =>
    rw [matchAtoms_text_of_head c cs (hall c (by simp))]
    have : (c :: cs).takeWhile textC = c :: cs := by
      rw [List.takeWhile_eq_self_iff]
      intro d hd
      exact hall d hd
    rw [this]

/-! ### Lemmas about the parse rules and dict operations -/

/-- The `parse2` on a well-separated `<digits><sep><textdash>` component sets
field1 to the digits and field2 to the text. -/
theorem parse2_structured (tr s0 ti : List Char) (f1 f2 : String)
    (htr : tr ≠ []) (htrd : ∀ c ∈ tr, isDigitC c = true)
    (hs0 : s0 ≠ []) (hs0s : ∀ c ∈ s0, sepC c = true)
    (hti : ti ≠ []) (htit : ∀ c ∈ ti, textDashC c = true)
    (hhd : ∀ c, ti.head? = some c → sepC c = false) :
    parse2 (tr ++ s0 ++ ti) f1 f2 = ([(f1, tr.asString), (f2, ti.asString)], []) := by
  unfold parse2
  rw [matchAtoms_twoField_structured tr s0 ti htr htrd hs0 hs0s hti htit hhd]
  rfl

/-- The `parse1` on a non-empty all-`text` component captures it whole. -/
theorem parse1_full (f : List Char) (field : String)
    (hne : f ≠ []) (hall : ∀ c ∈ f, textC c = true) :
    parse1 f field = ([(field, f.asString)], []) := by
  unfold parse1
  rw [matchAtoms_text_full f hne hall]
  rfl

/-- Every entry produced by `parse2` carries one of its two field names. -/
theorem parse2_keys (s : List Char) (f1 f2 : String) (kv : String × String)
    (h : kv ∈ (parse2 s f1 f2).1) : kv.1 = f1 ∨ kv.1 = f2 := by
  unfold parse2 at h
  cases hm : matchAtoms twoFieldAtoms s with
  | some segs =>
    rw [hm] at h
    simp only [List.mem_cons, List.mem_singleton, List.not_mem_nil, or_false] at h
    rcases h with h | h <;> subst h <;> simp
  | none =>
    rw [hm] at h
    cases ht : matchAtoms textAtoms s with
    | some segs =>
      rw [ht] at h
      simp only [List.mem_singleton] at h
      subst h
      simp
    | none =>
      rw [ht] at h
      simp at h

/-- Every entry produced by `parse1` carries its field name. -/
theorem parse1_keys (s : List Char) (field : String) (kv : String × String)
    (h : kv ∈ (parse1 s field).1) : kv.1 = field := by
  unfold parse1 at h
  cases ht : matchAtoms textAtoms s with
  | some segs =>
    rw [ht] at h
    simp only [List.mem_singleton] at h
    subst h
    rfl
  | none =>
    rw [ht] at h
    simp at h

/-- Membership after a dict assignment: the entry either carries the
assigned key or was already present. -/
theorem dictInsert_mem (d : List (String × String)) (k v : String)
    (kv : String × String) (h : kv ∈ dictInsert d k v) :
    kv.1 = k ∨ kv ∈ d := by
  unfold dictInsert at h
  by_cases hs : (lookupKey k d).isSome
  · rw [if_pos hs] at h
    rcases List.mem_map.mp h with ⟨e, he, heq⟩
    by_cases hek : e.1 = k
    · rw [if_pos hek] at heq
      left
      rw [← heq]
      exact hek
    · rw [if_neg hek] at heq
      right
      rw [← heq]
      exact he
  · rw [if_neg hs] at h
    rcases List.mem_append.mp h with h | h
    · exact Or.inr h
    · simp only [List.mem_singleton] at h
      subst h
      exact Or.inl rfl

/-- Membership after a dict update: the entry was present before or its
key occurs in the inserted entries. -/
theorem dictUpdate_mem (new d : List (String × String)) (kv : String × String)
    (h : kv ∈ dictUpdate d new) :
    kv ∈ d ∨ ∃ kv2 ∈ new, kv.1 = kv2.1 := by
  induction new generalizing d with
  | nil => exact Or.inl h
  | cons e rest ih =>
    rcases ih (dictInsert d e.1 e.2) h with h2 | ⟨kv2, hkv2, hk⟩
    · rcases dictInsert_mem d e.1 e.2 kv h2 with hk | hd
      · exact Or.inr ⟨e, by simp, hk⟩
      · exact Or.inl hd
    · exact Or.inr ⟨kv2, by simp [hkv2], hk⟩

/-- Unfolding `parse2` on a successful two-field match. -/
theorem parse2_of_match (s : List Char) (f1 f2 : String) (segs : List (List Char))
    (h : matchAtoms twoFieldAtoms s = some segs) :
    parse2 s f1 f2 =
      ([(f1, (segs.getD 0 []).asString), (f2, (segs.getD 2 []).asString)], []) := by
  unfold parse2
  rw [h]

/-- Unfolding `parse2` on a failed two-field match with a successful
text-only fallback. -/
theorem parse2_fallback (s : List Char) (f1 f2 : String) (segs : List (List Char))
    (h1 : matchAtoms twoFieldAtoms s = none)
    (h2 : matchAtoms textAtoms s = some segs) :
    parse2 s f1 f2 = ([(f2, (segs.getD 0 []).asString)], []) := by
  unfold parse2
  rw [h1, h2]

/-- Unfolding `parse2` on total failure: both fields unset, one diagnostic. -/
theorem parse2_fail (s : List Char) (f1 f2 : String)
    (h1 : matchAtoms twoFieldAtoms s = none)
    (h2 : matchAtoms textAtoms s = none) :
    parse2 s f1 f2 = ([], [Diag.cantParse f2 s.asString]) := by
  unfold parse2
  rw [h1, h2]

/-- Digits are allowed by the `text` pattern. -/
theorem textC_of_digit (c : Char) (h : isDigitC c = true) : textC c = true := by
  simp [textC, isDigitC] at h ⊢
  simp [h]

/-- The two-field pattern fails whenever the head is not a digit. -/
theorem matchAtoms_twoField_none (s : List Char)
    (h : ∀ c, s.head? = some c → isDigitC c = false) :
    matchAtoms twoFieldAtoms s = none := by
  have : twoFieldAtoms =
      Atom.mk isDigitC .plus :: [Atom.mk sepC .plus, Atom.mk textDashC .plus] := rfl
  rw [this]
  exact matchAtoms_plus_none isDigitC _ s (maxRun_head_false isDigitC s h)

end TwoConvert

namespace TwoConvert

/-! ## Claim theorems -/

/-- Claim C1 (confirmed).  For every file path with exactly 4 segments
below the source root — hypothesised as `extractFields path src` producing
four components, each decomposed per the naming convention
`genre/artist/year<SEP>album/track<SEP>title` (digit run, non-empty
separator run, text run whose head is not a separator character; plain
text for the artist and genre folders) — `get_tag_info_from_path` returns
a TagSet containing exactly the keys TRACKNUMBER, TITLE, DATE, ALBUM,
ARTIST, GENRE with the values taken from the corresponding positions, and
emits no diagnostic.  For every path with fewer segments, only the fields
for the positions that exist are populated (the embedded function is
total, mirroring that the source raises no error). -/
theorem c1_path_tags :
    (∀ (path src : String) (tr s0 ti d1 s1 al f2 f3 : List Char),
      extractFields path src = [tr ++ s0 ++ ti, d1 ++ s1 ++ al, f2, f3] →
      tr ≠ [] → (∀ c ∈ tr, isDigitC c = true) →
      s0 ≠ [] → (∀ c ∈ s0, sepC c = true) →
      ti ≠ [] → (∀ c ∈ ti, textDashC c = true) →
      (∀ c, ti.head? = some c → sepC c = false) →
      d1 ≠ [] → (∀ c ∈ d1, isDigitC c = true) →
      s1 ≠ [] → (∀ c ∈ s1, sepC c = true) →
      al ≠ [] → (∀ c ∈ al, textDashC c = true) →
      (∀ c, al.head? = some c → sepC c = false) →
      f2 ≠ [] → (∀ c ∈ f2, textC c = true) →
      f3 ≠ [] → (∀ c ∈ f3, textC c = true) →
      getTagInfoFromPathD path src =
        ([("TRACKNUMBER", tr.asString), ("TITLE", ti.asString), ("DATE", d1.asString),
          ("ALBUM", al.asString), ("ARTIST", f2.asString), ("GENRE", f3.asString)], [])) ∧
    (∀ (path src : String) (kv : String × String),
      (extractFields path src).length < 4 →
      kv ∈ (getTagInfoFromPathD path src).1 →
      kv.1 ∈ (List.take (extractFields path src).length
        [["TRACKNUMBER", "TITLE"], ["DATE", "ALBUM"], ["ARTIST"], ["GENRE"]]).flatten) := by
  constructor
  · intro path src tr s0 ti d1 s1 al f2 f3 hfields htr htrd hs0 hs0s hti htit hhd
      hd1 hd1d hs1 hs1s hal hald hahd hf2 hf2t hf3 hf3t
    have h0 := parse2_structured tr s0 ti ("TRACKNUMBER") ("TITLE") htr htrd hs0 hs0s hti htit hhd
    have h1 := parse2_structured d1 s1 al ("DATE") ("ALBUM") hd1 hd1d hs1 hs1s hal hald hahd
    have h2 := parse1_full f2 ("ARTIST") hf2 hf2t
    have h3 := parse1_full f3 ("GENRE") hf3 hf3t
    unfold getTagInfoFromPathD
    rw [hfields]
    simp only [parsePositional, parseFcnLookup, List.zip, List.zipWith, List.foldl,
      applyParseFcn, h0, h1, h2, h3]
    simp [dictUpdate, dictInsert, lookupKey]
  · intro path src kv hlen hmem
    unfold getTagInfoFromPathD at hmem
    rcases hfs : extractFields path src with _ | ⟨a, _ | ⟨b, _ | ⟨c, _ | ⟨d, tl⟩⟩⟩⟩
    · rw [hfs] at hmem
      simp [parsePositional] at hmem
    · rw [hfs] at hmem
      simp only [parsePositional, parseFcnLookup, List.zip, List.zipWith, List.foldl,
        applyParseFcn] at hmem
      rcases dictUpdate_mem _ _ _ hmem with h | ⟨kv2, hkv2, hk⟩
      · simp [dictUpdate] at h
      · rcases parse2_keys _ _ _ _ hkv2 with h | h <;> simp [hk, h]
    · rw [hfs] at hmem
      simp only [parsePositional, parseFcnLookup, List.zip, List.zipWith, List.foldl,
        applyParseFcn] at hmem
      rcases dictUpdate_mem _ _ _ hmem with h | ⟨kv2, hkv2, hk⟩
      · rcases dictUpdate_mem _ _ _ h with h2 | ⟨kv2, hkv2, hk⟩
        · simp [dictUpdate] at h2
        · rcases parse2_keys _ _ _ _ hkv2 with h | h <;> simp [hk, h]
      · rcases parse2_keys _ _ _ _ hkv2 with h | h <;> simp [hk, h]
    · rw [hfs] at hmem
      simp only [parsePositional, parseFcnLookup, List.zip, List.zipWith, List.foldl,
        applyParseFcn] at hmem
      rcases dictUpdate_mem _ _ _ hmem with h | ⟨kv2, hkv2, hk⟩
      · rcases dictUpdate_mem _ _ _ h with h2 | ⟨kv2, hkv2, hk⟩
        · rcases dictUpdate_mem _ _ _ h2 with h3 | ⟨kv2, hkv2, hk⟩
          · simp [dictUpdate] at h3
          · rcases parse2_keys _ _ _ _ hkv2 with h | h <;> simp [hk, h]
        · rcases parse2_keys _ _ _ _ hkv2 with h | h <;> simp [hk, h]
      · have := parse1_keys _ _ _ hkv2
        simp [hk, this]
    · rw [hfs] at hlen
      simp at hlen
      omega

/-- Witness for C1 at the end-to-end example path of the spec. -/
theorem c1_path_tags_witness :
    getTagInfoFromPathD ("2mp3/Rock/TheBand/1999-GreatAlbum/03-GreatSong.wav") ("2mp3") =
      ([("TRACKNUMBER", "03"), ("TITLE", "GreatSong"), ("DATE", "1999"),
        ("ALBUM", "GreatAlbum"), ("ARTIST", "TheBand"), ("GENRE", "Rock")], []) := by
  have h := c1_path_tags.1 ("2mp3/Rock/TheBand/1999-GreatAlbum/03-GreatSong.wav") ("2mp3")
    (("03").data) (("-").data) (("GreatSong").data)
    (("1999").data) (("-").data) (("GreatAlbum").data)
    (("TheBand").data) (("Rock").data)
    (by decide) (by decide) (by decide) (by decide) (by decide) (by decide) (by decide)
    (by decide) (by decide) (by decide) (by decide) (by decide) (by decide) (by decide)
    (by decide) (by decide) (by decide) (by decide) (by decide)
  exact h.trans (by decide)

/-- The `lookupKey` distributes over append, first list first. -/
theorem lookupKey_append (k : String) (d e : List (String × String)) :
    lookupKey k (d ++ e) =
      match lookupKey k d with
      | some v => some v
      | none => lookupKey k e := by
  induction d with
  | nil => rfl
  | cons kv rest ih =>
    by_cases h : kv.1 = k
    · simp [lookupKey, h]
    · simp [lookupKey, h, ih]

/-- Lookup in a merged tag set: the primary set wins, the secondary set
fills the gaps. -/
theorem mergeTags_lookup (p : List (String × String)) :
    ∀ (e : List (String × String)) (k : String),
      lookupKey k (mergeTags e p) =
        match lookupKey k e with
        | some v => some v
        | none => lookupKey k p := by
  induction p with
  | nil =>
    intro e k
    show lookupKey k e = _
    cases lookupKey k e <;> rfl
  | cons kv rest ih =>
    intro e k
    have hstep : mergeTags e (kv :: rest) =
        mergeTags (if (lookupKey kv.1 e).isSome then e else e ++ [kv]) rest := rfl
    rw [hstep, ih]
    by_cases hs : (lookupKey kv.1 e).isSome
    · rw [if_pos hs]
      by_cases hk : kv.1 = k
      · subst hk
        obtain ⟨w, hw⟩ := Option.isSome_iff_exists.mp hs
        simp [hw, lookupKey]
      · cases he : lookupKey k e <;> simp [lookupKey, hk]
    · rw [if_neg hs]
      have he0 : lookupKey kv.1 e = none := by
        cases h2 : lookupKey kv.1 e
        · rfl
        · rw [h2] at hs; simp at hs
      rw [lookupKey_append]
      by_cases hk : kv.1 = k
      · subst hk
        simp [he0, lookupKey]
      · cases he : lookupKey k e <;> simp [lookupKey, hk]

/-- A key of an entry of the list is found by `lookupKey`. -/
theorem lookupKey_isSome_of_mem (p : List (String × String)) (kv : String × String)
    (h : kv ∈ p) : (lookupKey kv.1 p).isSome = true := by
  induction p with
  | nil => simp at h
  | cons e rest ih =>
    rcases List.mem_cons.mp h with h | h
    · subst h
      simp [lookupKey]
    · by_cases he : e.1 = kv.1
      · simp [lookupKey, he]
      · simp [lookupKey, he, ih h]

/-- Merging adds nothing when every incoming key is already present. -/
theorem mergeTags_skip (p : List (String × String)) :
    ∀ acc, (∀ kv ∈ p, (lookupKey kv.1 acc).isSome = true) → mergeTags acc p = acc := by
  induction p with
  | nil => intro acc _; rfl
  | cons kv rest ih =>
    intro acc h
    have h1 : (lookupKey kv.1 acc).isSome = true := h kv (by simp)
    have hstep : mergeTags acc (kv :: rest) =
        mergeTags (if (lookupKey kv.1 acc).isSome then acc else acc ++ [kv]) rest := rfl
    rw [hstep, if_pos h1]
    exact ih acc (fun kv2 h2 => h kv2 (by simp [h2]))

/-- Claim C7 (confirmed).  The tag merge of `to_mp3` is
precedence-correct (every key present in the embedded set keeps its
value; keys missing from it are filled from the path-derived set),
reproduces the concrete example of the spec, and is idempotent. -/
theorem c7_merge_precedence :
    (∀ (e p : List (String × String)) (k v : String),
      lookupKey k e = some v → lookupKey k (mergeTags e p) = some v) ∧
    (∀ (e p : List (String × String)) (k : String),
      lookupKey k e = none → lookupKey k (mergeTags e p) = lookupKey k p) ∧
    mergeTags [("TITLE", "A")] [("TITLE", "B"), ("ARTIST", "C")] =
      [("TITLE", "A"), ("ARTIST", "C")] ∧
    (∀ e p : List (String × String), mergeTags (mergeTags e p) p = mergeTags e p) := by
  refine ⟨?_, ?_, by decide, ?_⟩
  · intro e p k v hv
    rw [mergeTags_lookup, hv]
  · intro e p k hv
    rw [mergeTags_lookup, hv]
  · intro e p
    apply mergeTags_skip
    intro kv hkv
    rw [mergeTags_lookup]
    cases he : lookupKey kv.1 e
    · simpa using lookupKey_isSome_of_mem p kv hkv
    · simp

/-- Witness for C7 on the example tag sets of the spec. -/
theorem c7_merge_precedence_witness :
    lookupKey ("TITLE") (mergeTags [("TITLE", "A")] [("TITLE", "B"), ("ARTIST", "C")]) =
      some ("A") ∧
    lookupKey ("ARTIST") (mergeTags [("TITLE", "A")] [("TITLE", "B"), ("ARTIST", "C")]) =
      lookupKey ("ARTIST") [("TITLE", "B"), ("ARTIST", "C")] ∧
    mergeTags (mergeTags [("TITLE", "A")] [("ARTIST", "C")]) [("ARTIST", "C")] =
      mergeTags [("TITLE", "A")] [("ARTIST", "C")] := by
  refine ⟨?_, ?_, ?_⟩
  · exact c7_merge_precedence.1 _ _ _ _ (by decide)
  · exact c7_merge_precedence.2.1 _ _ _ (by decide)
  · exact c7_merge_precedence.2.2.2 _ _

/-- Claim C6, counterexample.  `get_tag_info_from_file` never inspects the
exit status: with a non-zero exit but parseable stdout it returns a
non-empty TagSet (refuting "returns an empty TagSet"), and the function
contains no print statement, so no diagnostic is logged either. -/
theorem c6_counterexample :
    getTagInfoFromFile ⟨1, "Comments  :\nTITLE=x"⟩ = [("TITLE", "x")] ∧
    getTagInfoFromFile ⟨1, "Comments  :\nTITLE=x"⟩ ≠ [] := ⟨by decide, by decide⟩

/-- Claim C6 (corrected).  `get_tag_info_from_file` ignores the exit
status entirely: its result depends only on stdout; when the failed
command produces no stdout the TagSet is empty; no diagnostic is logged
(the embedded function has no print effects); and the failure is not
fatal to the enclosing job (`to_mp3` still returns `True` for every
environment, hence for every exit status of `sox --info`). -/
theorem c6_sox_exit_ignored :
    (∀ (rc rc2 : Int) (out : String),
      getTagInfoFromFile ⟨rc, out⟩ = getTagInfoFromFile ⟨rc2, out⟩) ∧
    (∀ rc : Int, getTagInfoFromFile ⟨rc, ""⟩ = []) ∧
    (∀ (env : Env) (path : String) (options : List String) (preview : Bool)
        (img : Option String), env.isfile path = true →
      (toMp3 env path options preview img).2 = .ret (some true)) := by
  refine ⟨fun _ _ _ => rfl, fun _ => rfl, ?_⟩
  intro env path options preview img hfile
  simp [toMp3, hfile]

/-- Witness for C6. -/
theorem c6_sox_exit_ignored_witness :
    getTagInfoFromFile ⟨3, ("x")⟩ = getTagInfoFromFile ⟨0, ("x")⟩ ∧
    getTagInfoFromFile ⟨3, ("")⟩ = [] ∧
    (toMp3 envOk ("2mp3/a.wav") [] true none).2 = .ret (some true) :=
  ⟨c6_sox_exit_ignored.1 3 0 ("x"), c6_sox_exit_ignored.2.1 3,
    c6_sox_exit_ignored.2.2 envOk ("2mp3/a.wav") [] true none (by decide)⟩

/-- Claim C3, counterexample.  `to_flac` on a `.flac` input delegates to
`flac_to_flac`, which has no `return` statement, so the caller receives
Python `None` (embedded `ret none`), not `True`. -/
theorem c3_counterexample :
    (toFlac envOk ("2flac/x.flac") [] false none).2 = .ret none ∧
    PyResult.ret none ≠ .ret (some true) := ⟨by decide, by decide⟩

/-- Claim C3 (corrected).  For every environment (hence every exit status
of the invoked external tool), `to_mp3` and `to_wav` return `True`;
`to_flac` returns `True` for inputs that are neither `.mp3` nor `.flac`,
but returns `None` for `.flac` inputs (the re-encode path has no return
statement) and asserts on `.mp3`. -/
theorem c3_return_values :
    (∀ (env : Env) (path : String) (options : List String) (preview : Bool)
        (img : Option String), env.isfile path = true →
      (toMp3 env path options preview img).2 = .ret (some true)) ∧
    (∀ (env : Env) (path : String) (options : List String) (preview : Bool)
        (img : Option String), env.isfile path = true →
      (toWav env path options preview img).2 = .ret (some true)) ∧
    (∀ (env : Env) (path : String) (options : List String) (preview : Bool)
        (img : Option String), env.isfile path = true →
      extLower path ≠ ".mp3" → extLower path ≠ ".flac" →
      (toFlac env path options preview img).2 = .ret (some true)) ∧
    (∀ (env : Env) (path : String) (options : List String) (preview : Bool)
        (img : Option String), env.isfile path = true → extLower path = ".flac" →
      (toFlac env path options preview img).2 = .ret none) := by
  refine ⟨?_, ?_, ?_, ?_⟩
  · intro env path options preview img hfile
    simp [toMp3, hfile]
  · intro env path options preview img hfile
    by_cases h1 : extLower path = ".flac"
    · simp [toWav, hfile, h1]
    · by_cases h2 : extLower path = ".mp3"
      · simp [toWav, hfile, h1, h2]
      · by_cases h3 : extLower path = ".wav"
        · simp [toWav, hfile, h1, h2, h3]
        · simp [toWav, hfile, h1, h2, h3]
  · intro env path options preview img hfile h1 h2
    by_cases h3 : extLower path = ".wav"
    · simp [toFlac, hfile, h1, h2, h3]
    · simp [toFlac, hfile, h1, h2, h3]
  · intro env path options preview img hfile h1
    have hne : extLower path ≠ ".mp3" := by
      rw [h1]
      decide
    simp [toFlac, flacToFlac, hfile, h1, hne]

/-- Witness for C3 covering all four conjuncts. -/
theorem c3_return_values_witness :
    (toMp3 envOk ("2mp3/a.wav") [] false none).2 = .ret (some true) ∧
    (toWav envOk ("2wav/a.flac") [] false none).2 = .ret (some true) ∧
    (toFlac envOk ("2flac/a.wav") [] false none).2 = .ret (some true) ∧
    (toFlac envOk ("2flac/a.flac") [] false none).2 = .ret none :=
  ⟨c3_return_values.1 envOk ("2mp3/a.wav") [] false none (by decide),
    c3_return_values.2.1 envOk ("2wav/a.flac") [] false none (by decide),
    c3_return_values.2.2.1 envOk ("2flac/a.wav") [] false none (by decide) (by decide)
      (by decide),
    c3_return_values.2.2.2 envOk ("2flac/a.flac") [] false none (by decide) (by decide)⟩

/-- Claim C8 (confirmed).  For every existing input file whose extension
lower-cases to `.mp3`, `to_flac` fails its precondition assertion with an
empty effect trace: nothing is run and nothing is recovered. -/
theorem c8_toflac_mp3_assert (env : Env) (path : String) (options : List String)
    (preview : Bool) (img : Option String)
    (hfile : env.isfile path = true) (hext : extLower path = ".mp3") :
    toFlac env path options preview img = ([], .assertFail) := by
  simp [toFlac, hfile, hext]

/-- Witness for C8, with an upper-case extension to exhibit
case-insensitivity. -/
theorem c8_toflac_mp3_assert_witness :
    toFlac envOk ("2flac/song.MP3") [] false none = ([], .assertFail) :=
  c8_toflac_mp3_assert envOk ("2flac/song.MP3") [] false none (by decide) (by decide)

/-- Claim C9 (confirmed).  `to_wav` dispatches on the (lower-cased)
source extension: `.flac` builds and runs the decode command, `.mp3`
builds and runs the sox resample/convert command, `.wav` runs no command
and returns success, and every other extension logs a diagnostic, runs no
command, and still returns success. -/
theorem c9_towav_dispatch :
    (∀ (env : Env) (path : String) (options : List String) (img : Option String),
      env.isfile path = true → extLower path = ".flac" →
      toWav env path options false img =
        (Eff.print (.header "-> WAV: " path) ::
          execChecked env (["flac", "-d"] ++ options ++ [path]), .ret (some true))) ∧
    (∀ (env : Env) (path : String) (options : List String) (img : Option String),
      env.isfile path = true → extLower path = ".mp3" →
      toWav env path options false img =
        (Eff.print (.header "-> WAV: " path) ::
          execChecked env (["sox"] ++ options ++ [path, extRoot path ++ ".wav"]),
          .ret (some true))) ∧
    (∀ (env : Env) (path : String) (options : List String) (img : Option String),
      env.isfile path = true → extLower path = ".wav" →
      toWav env path options false img = ([], .ret (some true))) ∧
    (∀ (env : Env) (path : String) (options : List String) (img : Option String),
      env.isfile path = true →
      extLower path ≠ ".flac" → extLower path ≠ ".mp3" → extLower path ≠ ".wav" →
      toWav env path options false img =
        ([Eff.print (.diag (.unknownFiletype (extLower path) path))], .ret (some true))) := by
  refine ⟨?_, ?_, ?_, ?_⟩
  · intro env path options img hfile hext
    simp [toWav, hfile, hext]
  · intro env path options img hfile hext
    have h1 : extLower path ≠ ".flac" := by rw [hext]; decide
    simp [toWav, hfile, hext, h1]
  · intro env path options img hfile hext
    have h1 : extLower path ≠ ".flac" := by rw [hext]; decide
    have h2 : extLower path ≠ ".mp3" := by rw [hext]; decide
    simp [toWav, hfile, hext, h1, h2]
  · intro env path options img hfile h1 h2 h3
    simp [toWav, hfile, h1, h2, h3]

/-- Witness for C9 covering all four dispatch branches. -/
theorem c9_towav_dispatch_witness :
    toWav envOk ("2wav/a.flac") [] false none =
      (Eff.print (.header "-> WAV: " ("2wav/a.flac")) ::
        execChecked envOk ["flac", "-d", "2wav/a.flac"], .ret (some true)) ∧
    toWav envOk ("2wav/b.mp3") [] false none =
      (Eff.print (.header "-> WAV: " ("2wav/b.mp3")) ::
        execChecked envOk ["sox", "2wav/b.mp3", "2wav/b.wav"], .ret (some true)) ∧
    toWav envOk ("2wav/c.wav") [] false none = ([], .ret (some true)) ∧
    toWav envOk ("2wav/d.txt") [] false none =
      ([Eff.print (.diag (.unknownFiletype (".txt") ("2wav/d.txt")))], .ret (some true)) := by
  refine ⟨?_, ?_, ?_, ?_⟩
  · have h := c9_towav_dispatch.1 envOk ("2wav/a.flac") [] none (by decide) (by decide)
    exact h.trans (by decide)
  · have h := c9_towav_dispatch.2.1 envOk ("2wav/b.mp3") [] none (by decide) (by decide)
    exact h.trans (by decide)
  · exact c9_towav_dispatch.2.2.1 envOk ("2wav/c.wav") [] none (by decide) (by decide)
  · have h := c9_towav_dispatch.2.2.2 envOk ("2wav/d.txt") [] none (by decide) (by decide)
      (by decide) (by decide)
    exact h.trans (by decide)

/-- Every effect of every converter step run in preview mode is a print or
a `sox --info` inspection. -/
theorem preview_conv_all_safe (c : Conv) (env : Env) (p : String) (img : Option String) :
    (runConv c env p true img).1.all previewSafeB = true := by
  cases c with
  | mp3 =>
    by_cases hf : env.isfile p <;>
      simp [runConv, toMp3, hf, previewSafeB, List.all_map, Function.comp]
  | wav =>
    by_cases hf : env.isfile p
    · by_cases h1 : extLower p = ".flac"
      · simp [runConv, toWav, hf, h1, previewSafeB]
      · by_cases h2 : extLower p = ".mp3"
        · simp [runConv, toWav, hf, h1, h2, previewSafeB]
        · by_cases h3 : extLower p = ".wav" <;>
            simp [runConv, toWav, hf, h1, h2, h3, previewSafeB]
    · simp [runConv, toWav, hf]
  | flac =>
    by_cases hf : env.isfile p
    · by_cases h1 : extLower p = ".mp3"
      · simp [runConv, toFlac, hf, h1]
      · by_cases h2 : extLower p = ".flac"
        · simp [runConv, toFlac, flacToFlac, hf, h1, h2, previewSafeB]
        · by_cases h3 : extLower p = ".wav" <;>
            simp [runConv, toFlac, hf, h1, h2, h3, previewSafeB, List.all_map,
              Function.comp]
    · simp [runConv, toFlac, hf]

/-- Every effect of a whole preview-mode case is a print or a `sox --info`
inspection (the relocation step only prints the move). -/
theorem preview_processCase_all_safe (env : Env) (j : Job) (hp : j.preview = true) :
    (processCase env j).1.all previewSafeB = true := by
  have hconv := preview_conv_all_safe j.conv env j.path j.img
  unfold processCase
  rw [hp]
  cases hr : (runConv j.conv env j.path true j.img).2 with
  | assertFail => simpa [hr] using hconv
  | error => simpa [hr] using hconv
  | ret v =>
    cases htf : topFolderStr j.path with
    | none => simpa [hr, htf] using hconv
    | some folder =>
      cases hg : (splitOnList (folder.data ++ ['/']) j.path.data)[1]? with
      | none => simp [hr, htf, hg, hconv]
      | some rel =>
        simp [hr, htf, hg, List.all_append, hconv, previewSafeB]

/-- The sequential loop preserves the preview effect discipline. -/
theorem runSequential_all_safe (env : Env) (jobs : List Job)
    (hp : ∀ j ∈ jobs, j.preview = true) :
    (runSequential env jobs).all previewSafeB = true := by
  induction jobs with
  | nil => rfl
  | cons j rest ih =>
    have hj := preview_processCase_all_safe env j (hp j (by simp))
    have hrest := ih (fun j2 h2 => hp j2 (by simp [h2]))
    show (match (processCase env j).2 with
      | .ret _ => (processCase env j).1 ++ runSequential env rest
      | _ => (processCase env j).1).all previewSafeB = true
    cases (processCase env j).2 <;> simp [List.all_append, hj, hrest]

/-- When no case raises, the trace of the sequential loop is the concatenation
of the per-case traces in job-list order. -/
theorem runSequential_flatMap (env : Env) (jobs : List Job)
    (hok : ∀ j ∈ jobs, ∃ v, (processCase env j).2 = .ret v) :
    runSequential env jobs = jobs.flatMap (fun j => (processCase env j).1) := by
  induction jobs with
  | nil => rfl
  | cons j rest ih =>
    obtain ⟨v, hv⟩ := hok j (by simp)
    show (match (processCase env j).2 with
      | .ret _ => (processCase env j).1 ++ runSequential env rest
      | _ => (processCase env j).1) = _
    rw [hv, ih (fun j2 h2 => hok j2 (by simp [h2])), List.flatMap_cons]

/-- Unpacking the Boolean preview-safety check. -/
theorem previewSafeB_spec (e : Eff) (h : previewSafeB e = true) :
    e.isMutation = false ∧
      ∀ cmd, e = Eff.run cmd → ∃ p2, cmd = ["sox", "--info", p2] := by
  cases e with
  | print l => exact ⟨rfl, fun _ hc => nomatch hc⟩
  | mkdirs d => exact absurd h (by simp [previewSafeB])
  | move a b => exact absurd h (by simp [previewSafeB])
  | remove f => exact absurd h (by simp [previewSafeB])
  | run cmd =>
    refine ⟨rfl, fun cmd2 hc => ?_⟩
    have hcc : cmd = cmd2 := by injection hc
    subst hcc
    match cmd, h with
    | [a, b, c], h =>
      simp only [previewSafeB, Bool.and_eq_true, beq_iff_eq] at h
      exact ⟨c, by rw [h.1, h.2]⟩
    | [], h => exact absurd h (by simp [previewSafeB])
    | [a], h => exact absurd h (by simp [previewSafeB])
    | [a, b], h => exact absurd h (by simp [previewSafeB])
    | a :: b :: c :: d :: rest, h => exact absurd h (by simp [previewSafeB])

/-- Claim C2, counterexample.  A single preview-mode flac re-encode job
executes one external command (the unconditional `sox --info` of
`get_tag_info_from_file`), refuting "zero external commands", and prints
two command lines, refuting "one command line per job". -/
theorem c2_counterexample :
    ((runSequential envOk [⟨"2flac/x.flac", .flac, none, true, none⟩]).countP
        Eff.isRun = 1) ∧
    ((runSequential envOk [⟨"2flac/x.flac", .flac, none, true, none⟩]).countP
        (fun e => match e with | Eff.print (Line.cmdLine _) => true | _ => false) = 2) ∧
    (1 : Nat) ≠ 0 ∧ (2 : Nat) ≠ 1 := ⟨by decide, by decide, by decide, by decide⟩

/-- Claim C2 (corrected).  In preview mode the program performs zero
filesystem mutations and the only external commands it executes are
`sox --info` metadata inspections (run unconditionally for mp3
conversions and flac re-encodes); and whenever no case raises, the
printed output is the concatenation of the per-job traces in job-list
order (one command line per constructed command: one for most
conversions, two for a flac re-encode, none for no-op jobs — not exactly
one per job, see the counterexample). -/
theorem c2_preview_frame :
    (∀ (env : Env) (jobs : List Job), (∀ j ∈ jobs, j.preview = true) →
      ∀ e ∈ runSequential env jobs,
        e.isMutation = false ∧
          ∀ cmd, e = Eff.run cmd → ∃ p2, cmd = ["sox", "--info", p2]) ∧
    (∀ (env : Env) (jobs : List Job),
      (∀ j ∈ jobs, ∃ v, (processCase env j).2 = .ret v) →
      runSequential env jobs = jobs.flatMap (fun j => (processCase env j).1)) := by
  constructor
  · intro env jobs hp e he
    have hall := runSequential_all_safe env jobs hp
    exact previewSafeB_spec e (List.all_eq_true.mp hall e he)
  · exact runSequential_flatMap

/-- Witness for C2 on a one-job preview list. -/
theorem c2_preview_frame_witness :
    (∀ e ∈ runSequential envOk [⟨"2mp3/a.wav", .mp3, none, true, none⟩],
      e.isMutation = false ∧
        ∀ cmd, e = Eff.run cmd → ∃ p2, cmd = ["sox", "--info", p2]) ∧
    runSequential envOk [⟨"2mp3/a.wav", .mp3, none, true, none⟩] =
      [(⟨"2mp3/a.wav", .mp3, none, true, none⟩ : Job)].flatMap
        (fun j => (processCase envOk j).1) := by
  constructor
  · exact c2_preview_frame.1 envOk _
      (by intro j hj; simp only [List.mem_singleton] at hj; subst hj; rfl)
  · exact c2_preview_frame.2 envOk _
      (by intro j hj; simp only [List.mem_singleton] at hj; subst hj
          exact ⟨none, by decide⟩)

/-- Claim C4 (code bug), evaluation at the failing input.  The relocation
destination is computed by splitting the path on the SUBSTRING
`folder + '/'`; for `2mp3/a2mp3/b.wav` the substring `2mp3/` also occurs
inside the second component, so the file is moved to `done/a` instead of
the mirrored `done/a2mp3/b.wav` promised by the claim and by the
comment in the source (keeping folder heirarchy). -/
theorem c4_bug_eval :
    processCase envOk ⟨"2mp3/a2mp3/b.wav", .wav, none, false, none⟩ =
      ([Eff.mkdirs ("done"), Eff.move ("2mp3/a2mp3/b.wav") ("done/a")], .ret none) ∧
    ("done/a" : String) ≠ "done/a2mp3/b.wav" := ⟨by decide, by decide⟩

/-- Claim C5, counterexample.  The claim states that dashes are allowed
only in the text of folder1; but at the filename position (fields TRACKNUMBER
and TITLE) the `<digits><separator><text>` alternative uses the
dash-allowing text pattern, so the stored TITLE value contains a dash. -/
theorem c5_counterexample :
    parse2 (("01 ab-cd").data) ("TRACKNUMBER") ("TITLE") =
      ([("TRACKNUMBER", "01"), ("TITLE", "ab-cd")], []) ∧
    ("ab-cd").data.any (fun c => c == '-') = true := ⟨by decide, by decide⟩

/-- Claim C5 (corrected).  For every string parsed at the filename or
folder1 position: if it matches `<digits><separator><text>` then field1 is
set to the digits and field2 to the matched text; otherwise, if it matches
`<text>` alone, only field2 is set; otherwise a diagnostic is emitted and
both fields stay unset — where (amended) the dash-allowing text pattern is
used by the `<digits><separator><text>` alternative at BOTH positions (not
only folder1), the text-alone fallback excludes dashes at both positions,
and underscores are also allowed.  The final conjunct exhibits a
dash-containing field2 value for arbitrary field names, i.e. at the
filename position as well. -/
theorem c5_two_field_rule :
    (∀ (s : List Char) (f1 f2 : String) (segs : List (List Char)),
      matchAtoms twoFieldAtoms s = some segs →
      parse2 s f1 f2 =
        ([(f1, (segs.getD 0 []).asString), (f2, (segs.getD 2 []).asString)], [])) ∧
    (∀ (s : List Char) (f1 f2 : String) (segs : List (List Char)),
      matchAtoms twoFieldAtoms s = none → matchAtoms textAtoms s = some segs →
      parse2 s f1 f2 = ([(f2, (segs.getD 0 []).asString)], [])) ∧
    (∀ (s : List Char) (f1 f2 : String),
      matchAtoms twoFieldAtoms s = none → matchAtoms textAtoms s = none →
      parse2 s f1 f2 = ([], [Diag.cantParse f2 s.asString])) ∧
    (∀ f1 f2 : String,
      parse2 (("01 ab-cd").data) f1 f2 = ([(f1, "01"), (f2, "ab-cd")], [])) := by
  refine ⟨parse2_of_match, parse2_fallback, parse2_fail, ?_⟩
  intro f1 f2
  unfold parse2
  rw [(by decide : matchAtoms twoFieldAtoms (("01 ab-cd").data) =
    some [("01").data, (" ").data, ("ab-cd").data])]
  rfl

/-- Witness for C5: one concrete instance of each of the three dispatch
branches. -/
theorem c5_two_field_rule_witness :
    parse2 (("03-Great").data) ("TRACKNUMBER") ("TITLE") =
      ([("TRACKNUMBER", "03"), ("TITLE", "Great")], []) ∧
    parse2 (("AC&DC").data) ("DATE") ("ALBUM") = ([("ALBUM", "AC")], []) ∧
    parse2 (("&bad").data) ("DATE") ("ALBUM") =
      ([], [Diag.cantParse ("ALBUM") ("&bad")]) := by
  refine ⟨?_, ?_, ?_⟩
  · have h := c5_two_field_rule.1 (("03-Great").data) ("TRACKNUMBER") ("TITLE")
      [("03").data, ("-").data, ("Great").data] (by decide)
    exact h.trans (by decide)
  · have h := c5_two_field_rule.2.1 (("AC&DC").data) ("DATE") ("ALBUM")
      [("AC").data] (by decide) (by decide)
    exact h.trans (by decide)
  · have h := c5_two_field_rule.2.2.1 (("&bad").data) ("DATE") ("ALBUM")
      (by decide) (by decide)
    exact h.trans (by decide)

/-- Claim C10, counterexample.  On the component `12--&x` the stored TITLE
value is `-`: the greedy separator run backtracks, so the stored value is
neither the longest `text`-allowed prefix (`12`) nor the longest
`text-dash`-allowed prefix (`12--`) — indeed not a prefix of the component
at all. -/
theorem c10_counterexample :
    getTagInfoFromPathD ("2mp3/12--&x.wav") ("2mp3") =
      ([("TRACKNUMBER", "12"), ("TITLE", "-")], []) ∧
    ((("12--&x").data.takeWhile textC).asString = "12" ∧
      (("12--&x").data.takeWhile textDashC).asString = "12--") ∧
    (("-" : String) ≠ "12" ∧ ("-" : String) ≠ "12--") :=
  ⟨by decide, ⟨by decide, by decide⟩, by decide, by decide⟩

/-- Claim C10 (corrected).  For every path component whose first character
is allowed by the text pattern, no diagnostic is emitted, and (amended) at
the one-field positions — and at the two-field positions whenever the
`<digits><separator><text>` alternative does not apply — the stored value
is exactly the longest allowed prefix of the component (truncation at the
first disallowed character, no rejection).  When the
`<digits><separator><text>` alternative does apply, the stored field2
value ends at the first character outside the dash-allowing class but need
not be a prefix of the component (see the counterexample). -/
theorem c10_silent_truncation :
    (∀ (c : Char) (rest : List Char) (field : String), textC c = true →
      parse1 (c :: rest) field =
        ([(field, ((c :: rest).takeWhile textC).asString)], [])) ∧
    (∀ (c : Char) (rest : List Char) (f1 f2 : String), textC c = true →
      (parse2 (c :: rest) f1 f2).2 = []) ∧
    (∀ (c : Char) (rest : List Char) (f1 f2 : String), textC c = true →
      matchAtoms twoFieldAtoms (c :: rest) = none →
      parse2 (c :: rest) f1 f2 =
        ([(f2, ((c :: rest).takeWhile textC).asString)], [])) := by
  refine ⟨?_, ?_, ?_⟩
  · intro c rest field hc
    unfold parse1
    rw [matchAtoms_text_of_head c rest hc]
    rfl
  · intro c rest f1 f2 hc
    cases hm : matchAtoms twoFieldAtoms (c :: rest) with
    | some segs => rw [parse2_of_match _ _ _ _ hm]
    | none =>
      rw [parse2_fallback _ _ _ _ hm (matchAtoms_text_of_head c rest hc)]
  · intro c rest f1 f2 hc hm
    have h := parse2_fallback (c :: rest) f1 f2
      [(c :: rest).takeWhile textC] hm (matchAtoms_text_of_head c rest hc)
    exact h.trans rfl

/-- Witness for C10: a one-field position and a two-field fallback, both
truncating at an `&`. -/
theorem c10_silent_truncation_witness :
    parse1 (("AC&DC").data) ("ARTIST") = ([("ARTIST", "AC")], []) ∧
    parse2 (("Great&Song").data) ("TRACKNUMBER") ("TITLE") =
      ([("TITLE", "Great")], []) := by
  constructor
  · have h := c10_silent_truncation.1 'A' (("C&DC").data) ("ARTIST") (by decide)
    exact h.trans (by decide)
  · have h := c10_silent_truncation.2.2 'G' (("reat&Song").data) ("TRACKNUMBER") ("TITLE")
      (by decide) (by decide)
    exact h.trans (by decide)

end TwoConvert
